import Mathlib

/-!
Shallow embedding of the `xterm-mouse` library: the ANSI mouse-sequence
decoder (`src/parser/ansiParser.ts` together with the regular expressions
of `src/parser/constants.ts`), the event router with click synthesis
(`Mouse.handleEvent`), the enable/disable lifecycle, and the subscription
state of the asynchronous event streams (`eventsOf` / `stream`).

JavaScript numbers that flow through bitwise operators are truncated to
32 bits (ToInt32); the helpers `toUint32` / `toInt32` model that.  The
regular expressions in `constants.ts` are anchored with `^` and carry the
`g` flag; under `String.prototype.matchAll` such a pattern can only match
at index 0 (a `^` assertion never holds at a later position when the
`m` flag is absent), so each `matchAll` call produces at most one match.
-/

namespace XtermMouse

/-- The `ButtonType` union of `src/types`. -/
inductive Button
  | left
  | middle
  | right
  | none
  | wheelUp
  | wheelDown
  | wheelLeft
  | wheelRight
  | back
  | forward
  | unknown
  deriving DecidableEq, Repr

/-- The `MouseEventAction` union of `src/types`. -/
inductive MAction
  | move
  | release
  | press
  | drag
  | wheel
  | click
  deriving DecidableEq, Repr

/-- The protocol tag carried by each decoded event. -/
inductive Protocol
  | SGR
  | ESC
  deriving DecidableEq, Repr

/-- A decoded mouse event (`MouseEventBase` of `src/types`).  Coordinates
and the raw code are JavaScript numbers; every value produced by the
decoder is an integer, so they are embedded as `Int`. -/
structure MEvent where
  protocol : Protocol
  x : Int
  y : Int
  button : Button
  action : MAction
  shift : Bool
  alt : Bool
  ctrl : Bool
  raw : Int
  data : List Char
  deriving DecidableEq, Repr

/-- Truncation of a nonnegative JavaScript number to its 32-bit pattern,
performed by every JS bitwise operator (ToUint32 on the bit pattern). -/
def toUint32 (n : Nat) : Nat := n % 4294967296

/-- Signed reading of a 32-bit pattern (JS ToInt32). -/
def toInt32 (n : Nat) : Int :=
  if n % 4294967296 < 2147483648 then ((n % 4294967296 : Nat) : Int)
  else ((n % 4294967296 : Nat) : Int) - 4294967296

/-- `!!(b & mask)` in JS for a nonnegative `b`: the operand is truncated
to 32 bits and the masked bits are tested. -/
def jsBitTest (b : Nat) (mask : Nat) : Bool := Nat.land (toUint32 b) mask != 0

/-- `b & ~(4 | 8 | 16 | 32)` in JS: the operand is truncated to 32 bits,
bits 2..5 are cleared (subtracting `b & 60` removes exactly those bits),
and the 32-bit result is read back as a signed value. -/
def sgrBase (b : Nat) : Int :=
  toInt32 (toUint32 b - Nat.land (toUint32 b) 60)

/-- `decodeButtonSGRBase` of `ansiParser.ts`: the switch over the button
base.  The base is an int32, hence the `Int` argument. -/
def decodeButtonSGRBase (base : Int) : Button :=
  if base = 0 then .left
  else if base = 1 then .middle
  else if base = 2 then .right
  else if base = 3 then Button.none
  else if base = 64 then .wheelUp
  else if base = 65 then .wheelDown
  else if base = 66 then .wheelLeft
  else if base = 67 then .wheelRight
  else if base = 128 then .back
  else if base = 129 then .forward
  else .unknown

/-- `decodeButtonESCBase` of `ansiParser.ts`.  The argument is the
`byte − 32` value, which the matched character class keeps in `[0, 95]`,
so a `Nat` faithfully represents it. -/
def decodeButtonESCBase (cb : Nat) : Button :=
  if Nat.land cb 64 != 0 then
    if Nat.land cb 1 = 0 then .wheelUp else .wheelDown
  else
    match Nat.land cb 3 with
    | 0 => .left
    | 1 => .middle
    | 2 => .right
    | 3 => Button.none
    | _ => .unknown

/-- `button.startsWith('wheel-')` on the button names. -/
def isWheelButton : Button → Bool
  | .wheelUp => true
  | .wheelDown => true
  | .wheelLeft => true
  | .wheelRight => true
  | _ => false

/-- The action derivation of `parseSGRMouseEvents`: motion first, then the
release conditions (`type === 'm' || base === 3`), then wheel, else press. -/
def sgrAction (b : Nat) (term : Char) : MAction :=
  let button := decodeButtonSGRBase (sgrBase b)
  if jsBitTest b 32 then
    if button = Button.none then .move else .drag
  else if term = 'm' ∨ sgrBase b = 3 then .release
  else if isWheelButton button then .wheel
  else .press

/-- The action derivation of `parseESCMouseEvents`: motion first, then
`(cb & 3) === 3`, then wheel, else press. -/
def escAction (cb : Nat) : MAction :=
  let button := decodeButtonESCBase cb
  if jsBitTest cb 32 then
    if button = Button.none then .move else .drag
  else if Nat.land cb 3 = 3 then .release
  else if isWheelButton button then .wheel
  else .press

/-- The greedy `\d+` of the SGR pattern: split a leading run of decimal
digits from the rest. -/
def takeDigits : List Char → List Char × List Char
  | [] => ([], [])
  | c :: cs =>
    if c.isDigit then
      let p := takeDigits cs
      (c :: p.1, p.2)
    else ([], c :: cs)

/-- A match of `sgrPattern` (`/^\x1b\[<(\d+);(\d+);(\d+)([Mm])/`): the full
match `m[0]`, the three digit groups and the terminator group. -/
structure SgrMatch where
  whole : List Char
  bDigits : List Char
  xDigits : List Char
  yDigits : List Char
  term : Char
  deriving DecidableEq, Repr

/-- Attempt of `sgrPattern` at index 0 (the pattern is `^`-anchored, so no
other index can match). -/
def sgrMatchAtStart : List Char → Option SgrMatch
  | '\x1b' :: '[' :: '<' :: rest =>
    let pb := takeDigits rest
    if pb.1 = [] then Option.none
    else
      match pb.2 with
      | ';' :: r2 =>
        let px := takeDigits r2
        if px.1 = [] then Option.none
        else
          match px.2 with
          | ';' :: r4 =>
            let py := takeDigits r4
            if py.1 = [] then Option.none
            else
              match py.2 with
              | t :: _ =>
                if t = 'M' ∨ t = 'm' then
                  some ⟨'\x1b' :: '[' :: '<' ::
                          (pb.1 ++ ';' :: px.1 ++ ';' :: py.1 ++ [t]),
                        pb.1, px.1, py.1, t⟩
                else Option.none
              | [] => Option.none
          | _ => Option.none
      | _ => Option.none
  | _ => Option.none

/-- A match of `escPattern`
(`/^\x1b\[M([\x20-\x7f])([\x20-\x7f])([\x20-\x7f])/`). -/
structure EscMatch where
  whole : List Char
  c1 : Char
  c2 : Char
  c3 : Char
  deriving DecidableEq, Repr

/-- The character class `[\x20-\x7f]` of the legacy pattern. -/
def isEscPayload (c : Char) : Prop := 32 ≤ c.toNat ∧ c.toNat ≤ 127

instance (c : Char) : Decidable (isEscPayload c) := by
  unfold isEscPayload; infer_instance

/-- Attempt of `escPattern` at index 0 (also `^`-anchored). -/
def escMatchAtStart : List Char → Option EscMatch
  | c0 :: c1 :: c2 :: a :: b :: c :: _ =>
    if c0 = '\x1b' ∧ c1 = '[' ∧ c2 = 'M' ∧
        isEscPayload a ∧ isEscPayload b ∧ isEscPayload c then
      some ⟨[c0, c1, c2, a, b, c], a, b, c⟩
    else Option.none
  | _ => Option.none

/-- `str.matchAll(p)` for a `^`-anchored pattern with the `g` flag: after
the first match `lastIndex` moves past index 0 and the `^` assertion can
never hold again, so at most one match is produced. -/
def matchAllAnchored {α : Type} (att : List Char → Option α) (s : List Char) :
    List α :=
  match att s with
  | some m => [m]
  | Option.none => []

/-- The run-length deduplication of the two parser loops: a match whose
`m[0]` equals the previously kept match's `m[0]` is skipped
(`if (m[0] === prevEvent) continue`), and `prevEvent` is only updated when
a match is kept. -/
def dedupConsecutiveBy {α : Type} (f : α → List Char) :
    List Char → List α → List α
  | _, [] => []
  | prev, m :: ms =>
    if f m = prev then dedupConsecutiveBy f prev ms
    else m :: dedupConsecutiveBy f (f m) ms

/-- `parseInt(digits, 10)` on a run of decimal digits. -/
def parseIntDigits (ds : List Char) : Nat :=
  ds.foldl (fun a c => a * 10 + (c.toNat - 48)) 0

/-- Construction of the SGR event yielded for one match of `sgrPattern`. -/
def sgrEventOfMatch (m : SgrMatch) : MEvent :=
  let b := parseIntDigits m.bDigits
  { protocol := .SGR
    x := (parseIntDigits m.xDigits : Int)
    y := (parseIntDigits m.yDigits : Int)
    button := decodeButtonSGRBase (sgrBase b)
    action := sgrAction b m.term
    shift := jsBitTest b 4
    alt := jsBitTest b 8
    ctrl := jsBitTest b 16
    raw := (b : Int)
    data := m.whole.drop 3 }

/-- `parseSGRMouseEvents`: all matches of the (anchored) SGR pattern, with
run-length deduplication, decoded in order. -/
def parseSGRMouseEvents (s : List Char) : List MEvent :=
  (dedupConsecutiveBy SgrMatch.whole [] (matchAllAnchored sgrMatchAtStart s)).map
    sgrEventOfMatch

/-- Construction of the legacy event yielded for one match of `escPattern`
(`cb`, `cx`, `cy` are `charCode − 32`; the matcher keeps the codes in
`[32, 127]`, so the `Nat` subtraction used for the decode argument does not
truncate). -/
def escEventOfMatch (m : EscMatch) : MEvent :=
  let cb := m.c1.toNat - 32
  { protocol := .ESC
    x := (m.c2.toNat : Int) - 32
    y := (m.c3.toNat : Int) - 32
    button := decodeButtonESCBase cb
    action := escAction cb
    shift := jsBitTest cb 4
    alt := jsBitTest cb 8
    ctrl := jsBitTest cb 16
    raw := (m.c1.toNat : Int) - 32
    data := m.whole.drop 2 }

/-- `parseESCMouseEvents`: all matches of the (anchored) legacy pattern,
with run-length deduplication, decoded in order. -/
def parseESCMouseEvents (s : List Char) : List MEvent :=
  (dedupConsecutiveBy EscMatch.whole [] (matchAllAnchored escMatchAtStart s)).map
    escEventOfMatch

/-- `parseMouseEvents`: pull the first SGR event; when one exists the SGR
generator is exhausted and the legacy parser is never consulted, otherwise
every legacy event is yielded. -/
def parseMouseEvents (s : List Char) : List MEvent :=
  let sgr := parseSGRMouseEvents s
  if sgr.isEmpty then parseESCMouseEvents s else sgr

/-! ## The event router (`Mouse.handleEvent`)

Listeners registered on the shared emitter are modelled by their only
observable behaviour inside `handleEvent`: whether the callback throws.
`emitter.emit(name, ev)` calls the listeners for `name` in registration
order; when one throws, the exception propagates out of `emit` and the
remaining listeners for that emission are skipped (Node `EventEmitter`
semantics). -/

/-- The listener registry of the shared emitter: for every action channel,
the registered callbacks in order, each represented by whether it throws. -/
structure Registry where
  get : MAction → List Bool

/-- A registry in which no callback throws. -/
def Registry.noThrow (reg : Registry) : Prop :=
  ∀ a : MAction, ∀ l ∈ reg.get a, l = false

/-- `emitter.emit` on one listener list: the count of callbacks that ran to
completion, and whether one threw (aborting the rest). -/
def emitRun : List Bool → Nat × Bool
  | [] => (0, false)
  | l :: ls =>
    if l then (0, true)
    else
      let p := emitRun ls
      (p.1 + 1, p.2)

/-- Observable outcome of one `handleEvent` call (or of any prefix of
dispatched events): the events emitted synchronously with how many of
their listeners completed, the `click` events scheduled through
`process.nextTick` (they run only after the synchronous loop and all its
listeners have returned), whether the catch block emitted on the `error`
channel, and the final `lastPress` slot. -/
structure DispatchOut where
  delivered : List (MEvent × Nat)
  deferredClicks : List MEvent
  erred : Bool
  lastPress : Option MEvent
  deriving DecidableEq, Repr

/-- The press/release bookkeeping that follows the emit of one event: a
press is stored in `lastPress`; a release synthesizes a deferred `click`
copy of itself when a press is stored within `|dx| ≤ 1 ∧ |dy| ≤ 1`
(`Math.abs` on each axis) and clears `lastPress` unconditionally; other
actions leave the slot alone. -/
def pressStep (s : Option MEvent) (e : MEvent) : Option MEvent × List MEvent :=
  if e.action = .press then (some e, [])
  else if e.action = .release then
    match s with
    | some pr =>
      if (e.x - pr.x).natAbs ≤ 1 ∧ (e.y - pr.y).natAbs ≤ 1 then
        (Option.none, [{ e with action := .click }])
      else (Option.none, [])
    | Option.none => (Option.none, [])
  else (s, [])

/-- The loop of `handleEvent` over the decoded events, threading the
`lastPress` slot.  Each event is emitted on its action channel first, then
the press/release bookkeeping of `pressStep` runs.  A throwing listener
aborts the loop: the catch emits the exception on `error`, and the state
mutation of the failing event never runs. -/
def dispatchEvents (reg : Registry) : List MEvent → Option MEvent → DispatchOut
  | [], s => { delivered := [], deferredClicks := [], erred := false, lastPress := s }
  | e :: es, s =>
    let p := emitRun (reg.get e.action)
    if p.2 then
      { delivered := [(e, p.1)], deferredClicks := [], erred := true, lastPress := s }
    else
      let step := pressStep s e
      let rest := dispatchEvents reg es step.1
      { delivered := (e, p.1) :: rest.delivered
        deferredClicks := step.2 ++ rest.deferredClicks
        erred := rest.erred
        lastPress := rest.lastPress }

/-- `Mouse.handleEvent`: decode the chunk, then dispatch every decoded
event in order. -/
def handleEvent (reg : Registry) (chunk : List Char) (s : Option MEvent) :
    DispatchOut :=
  dispatchEvents reg (parseMouseEvents chunk) s

/-! ## The enable/disable lifecycle

The input and output transports are external collaborators; their state
visible to `Mouse` is embedded in `TermSt`, and a failure-injection
configuration records which collaborator calls throw, so that every
failure path of `enable`/`disable` is reachable in the model. -/

/-- A stream encoding (`BufferEncoding`), as far as the code observes it. -/
inductive Enc
  | utf8
  | other
  deriving DecidableEq, Repr

/-- The collaborator state touched by `enable`/`disable`: the input
stream's TTY flag, raw mode, encoding, flowing state and whether the
`data` listener is attached. -/
structure TermSt where
  isTTY : Bool
  isRaw : Bool
  readableEncoding : Option Enc
  resumed : Bool
  dataHooked : Bool
  deriving DecidableEq, Repr

/-- The private fields of `Mouse` used by the lifecycle. -/
structure MouseSt where
  enabled : Bool
  previousRawMode : Option Bool
  previousEncoding : Option Enc
  deriving DecidableEq, Repr

/-- Which collaborator calls throw when invoked. -/
structure FailCfg where
  writeFails : Bool := false
  setRawFails : Bool := false
  setEncFails : Bool := false
  resumeFails : Bool := false
  onFails : Bool := false
  offFails : Bool := false
  pauseFails : Bool := false
  deriving DecidableEq, Repr

/-- The error kinds the lifecycle can surface: a bare `Error` or the
library's `MouseError` wrapper. -/
inductive ErrKind
  | plain
  | mouse
  deriving DecidableEq, Repr

/-- Outcome of an `enable`/`disable` call: the error thrown to the caller
(if any), the error emitted on the `error` channel (if any), and the
states afterwards. -/
structure LifecycleOut where
  thrown : Option ErrKind
  errorEmitted : Option ErrKind
  term : TermSt
  mouse : MouseSt
  deriving DecidableEq, Repr

/-- `Mouse.enable`: no-op when enabled; a bare `Error` for a non-TTY input;
then save the raw-mode/encoding slots, set `enabled`, and run
`write(on-codes)`, `setRawMode(true)`, `setEncoding('utf8')`, `resume()`,
`on('data')` in order.  The catch resets `enabled` and rethrows as
`MouseError`; collaborator calls already performed are not undone. -/
def enable (cfg : FailCfg) (t : TermSt) (m : MouseSt) : LifecycleOut :=
  if m.enabled then ⟨Option.none, Option.none, t, m⟩
  else if ¬ t.isTTY then ⟨some .plain, Option.none, t, m⟩
  else
    let m1 : MouseSt :=
      { enabled := true
        previousRawMode := some t.isRaw
        previousEncoding := t.readableEncoding }
    if cfg.writeFails then
      ⟨some .mouse, Option.none, t, { m1 with enabled := false }⟩
    else if cfg.setRawFails then
      ⟨some .mouse, Option.none, t, { m1 with enabled := false }⟩
    else
      let t1 := { t with isRaw := true }
      if cfg.setEncFails then
        ⟨some .mouse, Option.none, t1, { m1 with enabled := false }⟩
      else
        let t2 := { t1 with readableEncoding := some Enc.utf8 }
        if cfg.resumeFails then
          ⟨some .mouse, Option.none, t2, { m1 with enabled := false }⟩
        else
          let t3 := { t2 with resumed := true }
          if cfg.onFails then
            ⟨some .mouse, Option.none, t3, { m1 with enabled := false }⟩
          else ⟨Option.none, Option.none, { t3 with dataHooked := true }, m1⟩

/-- The `finally` block of `disable`: `enabled`, `previousRawMode` and
`previousEncoding` are reset whatever happened. -/
def disabledSlots : MouseSt :=
  { enabled := false, previousRawMode := Option.none, previousEncoding := Option.none }

/-- `Mouse.disable`: no-op when disabled; otherwise `off('data')`,
`pause()`, restore raw mode and encoding from the saved slots (each only
when its slot is non-null), and `write(off-codes)`.  The catch rethrows as
`MouseError` — nothing is emitted on the `error` channel — and the
`finally` block resets the state slots in every case. -/
def disable (cfg : FailCfg) (t : TermSt) (m : MouseSt) : LifecycleOut :=
  if ¬ m.enabled then ⟨Option.none, Option.none, t, m⟩
  else if cfg.offFails then ⟨some .mouse, Option.none, t, disabledSlots⟩
  else
    let t1 := { t with dataHooked := false }
    if cfg.pauseFails then ⟨some .mouse, Option.none, t1, disabledSlots⟩
    else
      let t2 := { t1 with resumed := false }
      if cfg.setRawFails ∧ m.previousRawMode.isSome then
        ⟨some .mouse, Option.none, t2, disabledSlots⟩
      else
        let t3 := match m.previousRawMode with
          | some r => { t2 with isRaw := r }
          | Option.none => t2
        if cfg.setEncFails ∧ m.previousEncoding.isSome then
          ⟨some .mouse, Option.none, t3, disabledSlots⟩
        else
          let t4 := match m.previousEncoding with
            | some enc => { t3 with readableEncoding := some enc }
            | Option.none => t3
          if cfg.writeFails then ⟨some .mouse, Option.none, t4, disabledSlots⟩
          else ⟨Option.none, Option.none, t4, disabledSlots⟩

/-! ## The asynchronous event streams (`eventsOf` / `stream`)

A subscription's mutable state is the FIFO `queue`, the `errorQueue`, the
`latest` slot, whether a pull is suspended (`resolveNext`/`rejectNext`
registered), and the cancellation signal's state.  The per-type handler of
`eventsOf` and the per-type handlers of `stream` share one body; they
differ only in the value enqueued (`stream` wraps it as `{type, event}`)
and in the capacity used — `eventsOf` computes
`finalMaxQueue = Math.min(maxQueue, 1000)` while `stream` compares against
the requested `maxQueue` directly. -/

/-- Errors a subscription can raise: the bare `Error` thrown before the
loop when the signal is already aborted, the `MouseError` abort raised
inside the loop or by the abort handler, and the `MouseError` wrapper the
error handler puts around an upstream `error` payload (identified here by
a numeric id). -/
inductive SErr
  | plainAbort
  | mouseAbort
  | wrapped (id : Nat)
  deriving DecidableEq, Repr

/-- Subscription state shared by `eventsOf` and `stream`. -/
structure SubSt (α : Type) where
  queue : List α
  errorQueue : List SErr
  latest : Option α
  waiter : Bool
  aborted : Bool
  deriving DecidableEq, Repr

/-- Result of one arrival: the new state and, when a pull was suspended,
the value resolved directly to it (bypassing queue and latest slot). -/
structure ArriveOut (α : Type) where
  st : SubSt α
  resolvedWith : Option α
  deriving DecidableEq, Repr

/-- The shared body of the event handlers: resolve a suspended pull
directly (clearing any stale `latest`), else keep only the newest value in
`latestOnly` mode, else enqueue, evicting the oldest item when the queue
has reached `capacity`. -/
def handlerArrive {α : Type} (latestOnly : Bool) (capacity : Nat)
    (st : SubSt α) (ev : α) : ArriveOut α :=
  if st.waiter then
    ⟨{ st with waiter := false, latest := Option.none }, some ev⟩
  else if latestOnly then
    ⟨{ st with latest := some ev }, Option.none⟩
  else
    let q := if st.queue.length ≥ capacity then st.queue.tail else st.queue
    ⟨{ st with queue := q ++ [ev] }, Option.none⟩

/-- The handler installed by `eventsOf`: capacity `Math.min(maxQueue, 1000)`. -/
def eventsOfArrive {α : Type} (latestOnly : Bool) (maxQueue : Nat) :
    SubSt α → α → ArriveOut α :=
  handlerArrive latestOnly (min maxQueue 1000)

/-- The handlers installed by `stream`: capacity is the requested
`maxQueue`, with no ceiling applied. -/
def streamArrive {α : Type} (latestOnly : Bool) (maxQueue : Nat) :
    SubSt α → α → ArriveOut α :=
  handlerArrive latestOnly maxQueue

/-- Folding a run of arrivals (no pulls in between) through a handler. -/
def arriveFold {α : Type} (h : SubSt α → α → ArriveOut α) :
    SubSt α → List α → SubSt α
  | st, [] => st
  | st, e :: es => arriveFold h (h st e).st es

/-- The `errorHandler` of both generators: wrap the upstream payload in a
`MouseError`; reject a pending pull when one is suspended, else record the
error on the `errorQueue`. -/
def errorArrive {α : Type} (st : SubSt α) (id : Nat) : SubSt α × Option SErr :=
  if st.waiter then ({ st with waiter := false }, some (.wrapped id))
  else ({ st with errorQueue := st.errorQueue ++ [SErr.wrapped id] }, Option.none)

/-- The `abortHandler`: the signal is now aborted; reject a pending pull
with a `MouseError` abort, else record it on the `errorQueue`. -/
def abortArrive {α : Type} (st : SubSt α) : SubSt α × Option SErr :=
  if st.waiter then
    ({ st with waiter := false, aborted := true }, some .mouseAbort)
  else
    ({ st with errorQueue := st.errorQueue ++ [SErr.mouseAbort], aborted := true },
      Option.none)

/-- What one iteration of the pull loop does. -/
inductive PullOut (α : Type)
  | raise (e : SErr)
  | yielded (a : α)
  | suspend
  deriving DecidableEq, Repr

/-- One iteration of the pull loop, in the code's order: an aborted signal
raises first, then a recorded error is raised (before any queued data),
then the FIFO is served, then the `latest` slot, else the pull suspends. -/
def pullStep {α : Type} (st : SubSt α) : PullOut α × SubSt α :=
  if st.aborted then (.raise .mouseAbort, st)
  else
    match st.errorQueue with
    | e :: es => (.raise e, { st with errorQueue := es })
    | [] =>
      match st.queue with
      | q :: qs => (.yielded q, { st with queue := qs })
      | [] =>
        match st.latest with
        | some v => (.yielded v, { st with latest := Option.none })
        | Option.none => (.suspend, { st with waiter := true })

/-- The check at the top of both generator bodies, run on the first pull:
a signal that is already aborted makes it throw a bare
`Error('The operation was aborted.')` before any subscription state is
created. -/
def generatorStart (signalAborted : Bool) : Option SErr :=
  if signalAborted then some .plainAbort else Option.none

/-- The options record of `eventsOf` with its destructuring defaults. -/
structure EventsOfOptions where
  latestOnly : Bool := false
  maxQueue : Nat := 100
  deriving DecidableEq, Repr

/-- The options record of `stream` with its destructuring defaults. -/
structure StreamOptions where
  latestOnly : Bool := false
  maxQueue : Nat := 1000
  deriving DecidableEq, Repr

/-! ## Specification-side definitions

These follow the wording of the specification (not the source) and exist
to be compared against the embedded code. -/

/-- The action-derivation priority as the specification and claim C2 state
it: motion, then wheel, then the release conditions, then press. -/
def sgrActionSpec (b : Nat) (term : Char) : MAction :=
  if jsBitTest b 32 then
    if decodeButtonSGRBase (sgrBase b) = Button.none then .move else .drag
  else if isWheelButton (decodeButtonSGRBase (sgrBase b)) then .wheel
  else if term = 'm' ∨ sgrBase b = 3 then .release
  else .press

/-- The claimed legacy action order: motion, then wheel, then the
`(cb & 3) = 3` release condition, then press. -/
def escActionSpec (cb : Nat) : MAction :=
  if jsBitTest cb 32 then
    if decodeButtonESCBase cb = Button.none then .move else .drag
  else if isWheelButton (decodeButtonESCBase cb) then .wheel
  else if Nat.land cb 3 = 3 then .release
  else .press

/-- The amended SGR action order: motion, then the release conditions
(`'m'` terminator or base 3), then wheel, then press. -/
def sgrActionAmended (b : Nat) (term : Char) : MAction :=
  if jsBitTest b 32 then
    if decodeButtonSGRBase (sgrBase b) = Button.none then .move else .drag
  else if term = 'm' ∨ sgrBase b = 3 then .release
  else if isWheelButton (decodeButtonSGRBase (sgrBase b)) then .wheel
  else .press

/-- The amended legacy action order: motion, then `(cb & 3) = 3`, then
wheel, then press. -/
def escActionAmended (cb : Nat) : MAction :=
  if jsBitTest cb 32 then
    if decodeButtonESCBase cb = Button.none then .move else .drag
  else if Nat.land cb 3 = 3 then .release
  else if isWheelButton (decodeButtonESCBase cb) then .wheel
  else .press

/-- The button-base table exactly as claim C3 lists it, on the
untruncated value. -/
def specButtonBaseMap (base : Nat) : Button :=
  if base = 0 then .left
  else if base = 1 then .middle
  else if base = 2 then .right
  else if base = 3 then Button.none
  else if base = 64 then .wheelUp
  else if base = 65 then .wheelDown
  else if base = 66 then .wheelLeft
  else if base = 67 then .wheelRight
  else if base = 128 then .back
  else if base = 129 then .forward
  else .unknown

/-- "`B` with bits {2,3,4,5} (values 4, 8, 16, 32) cleared": subtracting
`Nat.land b 60` removes exactly those bits. -/
def clearModBits (b : Nat) : Nat := b - Nat.land b 60

/-- The button the decoder assigns to a combined SGR code. -/
def sgrButtonOfCode (b : Nat) : Button := decodeButtonSGRBase (sgrBase b)

/-! ## Theorems for the claims -/

/-- C2 counterexample: the claim puts the wheel check above the release
conditions, but the code checks `type === 'm'` (SGR) and `(cb & 3) === 3`
(legacy) first.  SGR code 64 (wheel-up) with terminator `m` decodes to
`release`, and legacy `cb = 67` (wheel bit set, low bits 3) decodes to
`release`, while the claimed order yields `wheel` in both cases. -/
theorem sgr_action_wheel_counterexample :
    sgrAction 64 'm' = MAction.release
  ∧ sgrActionSpec 64 'm' = MAction.wheel
  ∧ escAction 67 = MAction.release
  ∧ escActionSpec 67 = MAction.wheel := by decide

/-- C2 amended: in both decoded forms the action is derived as (1) motion
bit set → `move`/`drag`, (2) else the release condition (`'m'` terminator
or SGR base 3; legacy `(cb & 3) = 3`) → `release`, (3) else a wheel button
→ `wheel`, (4) else `press`; the motion bit still takes priority over the
`'m'` terminator, and the release condition takes priority over a wheel
button code. -/
theorem sgr_esc_action_order (b cb : Nat) (term : Char) :
    sgrAction b term = sgrActionAmended b term
  ∧ escAction cb = escActionAmended cb :=
  ⟨rfl, rfl⟩

/-- C3 counterexample: for the SGR sequence `ESC [ < 4294967296 ; 1 ; 1 M`
the combined code is 4294967296 = 2^32; its bits {2,3,4,5} are already
clear, so the claim maps the base 4294967296 to `unknown`, but the code's
bitwise operations truncate to 32 bits, the base becomes 0 and the decoded
button is `left`. -/
theorem sgr_button_counterexample :
    (parseSGRMouseEvents ("\x1b[<4294967296;1;1M".toList)).map MEvent.button
      = [Button.left]
  ∧ specButtonBaseMap (clearModBits 4294967296) = Button.unknown
  ∧ sgrButtonOfCode 4294967296 ≠ specButtonBaseMap (clearModBits 4294967296) := by
  decide

/-- The decoder's switch agrees with the claim's table on nonnegative
bases. -/
theorem decodeButtonSGRBase_cast (m : Nat) :
    decodeButtonSGRBase (m : Int) = specButtonBaseMap m := by
  unfold decodeButtonSGRBase specButtonBaseMap
  norm_cast

/-- A negative int32 base matches no switch case. -/
theorem decodeButtonSGRBase_neg (z : Int) (hz : z < 0) :
    decodeButtonSGRBase z = Button.unknown := by
  unfold decodeButtonSGRBase
  split_ifs <;> first | rfl | omega

/-- A base above 129 matches no case of the claim's table. -/
theorem specButtonBaseMap_big (m : Nat) (hm : 129 < m) :
    specButtonBaseMap m = Button.unknown := by
  unfold specButtonBaseMap
  split_ifs <;> first | rfl | omega

/-- C3 amended: the decoder computes the button base as `B`, truncated to
32 bits (JS ToInt32 on every bitwise operand), with bits {2,3,4,5}
cleared, and maps it through 0→left, 1→middle, 2→right, 3→none,
64→wheel-up, 65→wheel-down, 66→wheel-left, 67→wheel-right, 128→back,
129→forward, anything else→unknown; the modifier bits of the truncated
code never change the decoded button. -/
theorem sgr_button_map (b : Nat) :
    sgrButtonOfCode b = specButtonBaseMap (clearModBits (toUint32 b)) := by
  unfold sgrButtonOfCode sgrBase
  have hn : toUint32 b < 4294967296 := Nat.mod_lt _ (by norm_num)
  have hsub : toUint32 b - Nat.land (toUint32 b) 60 < 4294967296 :=
    lt_of_le_of_lt (Nat.sub_le _ _) hn
  have harg : clearModBits (toUint32 b) = toUint32 b - Nat.land (toUint32 b) 60 := rfl
  rw [harg]
  generalize hgen : toUint32 b - Nat.land (toUint32 b) 60 = m
  rw [hgen] at hsub
  unfold toInt32
  rw [Nat.mod_eq_of_lt hsub]
  by_cases h : m < 2147483648
  · rw [if_pos h]
    exact decodeButtonSGRBase_cast m
  · rw [if_neg h]
    rw [decodeButtonSGRBase_neg _ (by omega), specButtonBaseMap_big m (by omega)]

/-- C4: the code contradicts the claim (and the repository's own test
`parseMouseEvents should handle multiple, concatenated events`): the
patterns of `constants.ts` are `^`-anchored, so `matchAll` yields at most
one match per call; two concatenated valid SGR sequences decode to a
single event, two identical concatenated sequences likewise, and leading
non-protocol text prevents any match at all. -/
theorem parse_concat_failing :
    (parseMouseEvents ("\x1b[<0;10;20M\x1b[<1;11;21M".toList)).length = 1
  ∧ (parseMouseEvents ("\x1b[<0;10;20M\x1b[<0;10;20M".toList)).length = 1
  ∧ (parseMouseEvents ("some text \x1b[<0;10;20M".toList)).length = 0 := by
  decide

/-! ### Dispatch lemmas (claims C1 and C8) -/

/-- A listener list in which nothing throws completes fully. -/
theorem emitRun_noThrow (ls : List Bool) (h : ∀ l ∈ ls, l = false) :
    emitRun ls = (ls.length, false) := by
  induction ls with
  | nil => rfl
  | cons l ls ih =>
    have hl : l = false := h l (List.mem_cons_self _ _)
    have ht := ih (fun x hx => h x (List.mem_cons_of_mem _ hx))
    simp [emitRun, hl, ht]

/-- A listener list containing a throwing callback aborts the emit before
every callback has run. -/
theorem emitRun_throws (ls : List Bool) (h : true ∈ ls) :
    (emitRun ls).2 = true ∧ (emitRun ls).1 < ls.length := by
  induction ls with
  | nil => simp at h
  | cons l ls ih =>
    by_cases hl : l
    · simp [emitRun, hl]
    · have hmem : true ∈ ls := by
        rcases List.mem_cons.mp h with h1 | h1
        · exact absurd h1.symm hl
        · exact h1
      obtain ⟨h1, h2⟩ := ih hmem
      simp [emitRun, hl, h1]
      omega

/-- Unfolding of one dispatched event whose listeners all complete. -/
theorem dispatchEvents_cons_ok (reg : Registry) (e : MEvent) (es : List MEvent)
    (s : Option MEvent) (h : ∀ l ∈ reg.get e.action, l = false) :
    dispatchEvents reg (e :: es) s =
      { delivered := (e, (reg.get e.action).length) ::
          (dispatchEvents reg es (pressStep s e).1).delivered
        deferredClicks := (pressStep s e).2 ++
          (dispatchEvents reg es (pressStep s e).1).deferredClicks
        erred := (dispatchEvents reg es (pressStep s e).1).erred
        lastPress := (dispatchEvents reg es (pressStep s e).1).lastPress } := by
  rw [dispatchEvents, emitRun_noThrow _ h]
  simp

/-- Unfolding of one dispatched event among whose listeners one throws:
the loop aborts, nothing later runs, and the press/release bookkeeping of
the failing event is skipped. -/
theorem dispatchEvents_cons_throws (reg : Registry) (e : MEvent)
    (es : List MEvent) (s : Option MEvent) (h : true ∈ reg.get e.action) :
    dispatchEvents reg (e :: es) s =
      { delivered := [(e, (emitRun (reg.get e.action)).1)]
        deferredClicks := []
        erred := true
        lastPress := s } := by
  rw [dispatchEvents]
  simp [(emitRun_throws _ h).1]

/-- C1: when a press event is dispatched and then — after any events that
are neither presses nor releases — a release event is dispatched, and no
listener throws, then: exactly when the Chebyshev distance
`max(|dx|, |dy|)` between release and press is ≤ 1, a copy of the release
event with action `click` (same position, button and modifiers) is
scheduled for the deferred click emission, which runs only after the
synchronous emissions — including the release's own listeners — have all
completed; in both distance cases the `lastPress` slot ends cleared, and
every event is delivered to all listeners of its action in order. -/
theorem click_synthesis (reg : Registry) (hreg : reg.noThrow)
    (s0 : Option MEvent) (p r : MEvent) (mid : List MEvent)
    (hp : p.action = MAction.press) (hr : r.action = MAction.release)
    (hmid : ∀ e ∈ mid, e.action ≠ MAction.press ∧ e.action ≠ MAction.release) :
    dispatchEvents reg (p :: mid ++ [r]) s0 =
      { delivered := (p :: mid ++ [r]).map (fun e => (e, (reg.get e.action).length))
        deferredClicks :=
          if max (r.x - p.x).natAbs (r.y - p.y).natAbs ≤ 1 then
            [{ r with action := MAction.click }]
          else []
        erred := false
        lastPress := Option.none } := by
  have core : ∀ (mid2 : List MEvent),
      (∀ e ∈ mid2, e.action ≠ MAction.press ∧ e.action ≠ MAction.release) →
      dispatchEvents reg (mid2 ++ [r]) (some p) =
        { delivered := (mid2 ++ [r]).map (fun e => (e, (reg.get e.action).length))
          deferredClicks :=
            if (r.x - p.x).natAbs ≤ 1 ∧ (r.y - p.y).natAbs ≤ 1 then
              [{ r with action := MAction.click }]
            else []
          erred := false
          lastPress := Option.none } := by
    intro mid2
    induction mid2 with
    | nil =>
      intro _
      rw [List.nil_append, dispatchEvents_cons_ok reg r [] (some p) (hreg _)]
      have hstep : pressStep (some p) r =
          (Option.none,
            if (r.x - p.x).natAbs ≤ 1 ∧ (r.y - p.y).natAbs ≤ 1 then
              [{ r with action := MAction.click }]
            else []) := by
        unfold pressStep
        rw [hr]
        simp only [reduceCtorEq, if_false, if_neg]
        split_ifs <;> rfl
      rw [hstep]
      simp [dispatchEvents]
    | cons e es ih =>
      intro hm
      have he := hm e (List.mem_cons_self _ _)
      have hes := fun x hx => hm x (List.mem_cons_of_mem _ hx)
      rw [List.cons_append, dispatchEvents_cons_ok reg e (es ++ [r]) (some p) (hreg _)]
      have hstep : pressStep (some p) e = (some p, []) := by
        unfold pressStep
        rw [if_neg (by simp [he.1]), if_neg (by simp [he.2])]
      rw [hstep]
      simp only []
      rw [ih hes]
      simp
  rw [List.cons_append, dispatchEvents_cons_ok reg p (mid ++ [r]) s0 (hreg _)]
  have hstep : pressStep s0 p = (some p, []) := by
    unfold pressStep
    rw [if_pos hp]
  rw [hstep]
  simp only []
  rw [core mid hmid]
  simp [Nat.max_le]

/-- C1 witness: press at (10, 20) then release at (11, 21) — Chebyshev
distance 1 — through a registry with no listeners: the deferred click copy
of the release is scheduled and the `lastPress` slot ends cleared. -/
theorem click_synthesis_witness :
    dispatchEvents ⟨fun _ => []⟩
      [⟨.SGR, 10, 20, .left, .press, false, false, false, 0, []⟩,
       ⟨.SGR, 11, 21, .left, .release, false, false, false, 0, []⟩]
      Option.none =
      { delivered :=
          [(⟨.SGR, 10, 20, .left, .press, false, false, false, 0, []⟩, 0),
           (⟨.SGR, 11, 21, .left, .release, false, false, false, 0, []⟩, 0)]
        deferredClicks := [⟨.SGR, 11, 21, .left, .click, false, false, false, 0, []⟩]
        erred := false
        lastPress := Option.none } := by
  have h := click_synthesis ⟨fun _ => []⟩ (fun _ l hl => absurd hl (List.not_mem_nil l))
    Option.none
    ⟨.SGR, 10, 20, .left, .press, false, false, false, 0, []⟩
    ⟨.SGR, 11, 21, .left, .release, false, false, false, 0, []⟩
    [] rfl rfl (fun e he => absurd he (List.not_mem_nil e))
  simpa using h

/-- C8 counterexample: two listeners registered for `press`, the first of
which throws.  The try/catch of `handleEvent` wraps the whole dispatch
loop, not each listener: the exception aborts the emit, so the second
listener never receives the event (0 of 2 callbacks completed), the
exception is re-emitted on `error`, and the press is never stored in
`lastPress` — the claimed per-listener isolation does not hold. -/
theorem listener_isolation_counterexample :
    dispatchEvents ⟨fun a => if a = MAction.press then [true, false] else []⟩
      [⟨.SGR, 10, 20, .left, .press, false, false, false, 0, []⟩] Option.none =
      { delivered := [(⟨.SGR, 10, 20, .left, .press, false, false, false, 0, []⟩, 0)]
        deferredClicks := []
        erred := true
        lastPress := Option.none } := by
  decide

/-- C8 amended: an exception thrown by a registered listener is caught
once around the whole dispatch loop and re-emitted on the `error` channel
instead of propagating to the caller; it aborts the emit, so listeners
registered after the throwing one do not receive the event (fewer
callbacks complete than are registered), no later event of the same chunk
is dispatched, and the press-memory update of the failing event is skipped
(`lastPress` keeps the value it had before that event). -/
theorem listener_failure_behavior (reg : Registry) (s : Option MEvent)
    (e : MEvent) (es : List MEvent) (h : true ∈ reg.get e.action) :
    dispatchEvents reg (e :: es) s =
      { delivered := [(e, (emitRun (reg.get e.action)).1)]
        deferredClicks := []
        erred := true
        lastPress := s }
    ∧ (emitRun (reg.get e.action)).1 < (reg.get e.action).length :=
  ⟨dispatchEvents_cons_throws reg e es s h, (emitRun_throws _ h).2⟩

/-- C8 amended witness: the counterexample configuration, obtained through
the amended theorem: the dispatch aborts with the error re-emitted, and
only 0 of the 2 registered listeners completed. -/
theorem listener_failure_behavior_witness :
    dispatchEvents ⟨fun a => if a = MAction.press then [true, false] else []⟩
      [⟨.SGR, 3, 4, .left, .press, false, false, false, 0, []⟩,
       ⟨.SGR, 3, 4, .left, .release, false, false, false, 0, []⟩] Option.none =
      { delivered := [(⟨.SGR, 3, 4, .left, .press, false, false, false, 0, []⟩, 0)]
        deferredClicks := []
        erred := true
        lastPress := Option.none }
    ∧ (0 : Nat) < 2 := by
  have h := listener_failure_behavior
    ⟨fun a => if a = MAction.press then [true, false] else []⟩ Option.none
    ⟨.SGR, 3, 4, .left, .press, false, false, false, 0, []⟩
    [⟨.SGR, 3, 4, .left, .release, false, false, false, 0, []⟩]
    (by decide)
  exact ⟨by simpa using h.1, by decide⟩

/-- C9: evaluation of `disable` at the failing configuration — the
instance is enabled and the output transport's `write` throws while the
disable control sequences are written.  The catch rethrows the failure as
a `MouseError` to the caller of `disable` and emits nothing on the
`error` channel — contradicting the claim (and the repository's tests
`Mouse disable should emit error when an error occurs` and
`Mouse.disable() should not throw when an error occurs`) — while the
`finally` block does reset the instance to the disabled state with the
saved raw-mode and encoding slots cleared. -/
theorem disable_write_failure_eval :
    disable { writeFails := true } ⟨true, true, some Enc.utf8, true, true⟩
      ⟨true, some false, some Enc.other⟩ =
      { thrown := some ErrKind.mouse
        errorEmitted := Option.none
        term := ⟨true, false, some Enc.other, false, false⟩
        mouse := ⟨false, Option.none, Option.none⟩ } := by
  decide

/-! ### Legacy-event range lemmas (claim C10) -/

/-- The deduplication loop only drops matches; it never invents one. -/
theorem mem_of_mem_dedupConsecutiveBy {α : Type} (f : α → List Char) :
    ∀ (prev : List Char) (l : List α) (x : α),
      x ∈ dedupConsecutiveBy f prev l → x ∈ l := by
  intro prev l
  induction l generalizing prev with
  | nil =>
    intro x hx
    simp [dedupConsecutiveBy] at hx
  | cons m ms ih =>
    intro x hx
    unfold dedupConsecutiveBy at hx
    split at hx
    · exact List.mem_cons_of_mem _ (ih _ _ hx)
    · rcases List.mem_cons.mp hx with h1 | h1
      · exact h1 ▸ List.mem_cons_self _ _
      · exact List.mem_cons_of_mem _ (ih _ _ h1)

/-- A successful legacy match only contains payload characters accepted by
the class `[\x20-\x7f]`. -/
theorem escMatch_payloads {s : List Char} {m : EscMatch}
    (h : escMatchAtStart s = some m) :
    isEscPayload m.c1 ∧ isEscPayload m.c2 ∧ isEscPayload m.c3 := by
  match s with
  | [] => simp [escMatchAtStart] at h
  | [_] => simp [escMatchAtStart] at h
  | [_, _] => simp [escMatchAtStart] at h
  | [_, _, _] => simp [escMatchAtStart] at h
  | [_, _, _, _] => simp [escMatchAtStart] at h
  | [_, _, _, _, _] => simp [escMatchAtStart] at h
  | c0 :: c1 :: c2 :: a :: b :: c :: rest =>
    rw [show escMatchAtStart (c0 :: c1 :: c2 :: a :: b :: c :: rest) =
        (if c0 = '\x1b' ∧ c1 = '[' ∧ c2 = 'M' ∧
            isEscPayload a ∧ isEscPayload b ∧ isEscPayload c then
          some ⟨[c0, c1, c2, a, b, c], a, b, c⟩
        else Option.none) from rfl] at h
    by_cases hc : c0 = '\x1b' ∧ c1 = '[' ∧ c2 = 'M' ∧
        isEscPayload a ∧ isEscPayload b ∧ isEscPayload c
    · rw [if_pos hc] at h
      injection h with h
      subst h
      exact ⟨hc.2.2.2.1, hc.2.2.2.2.1, hc.2.2.2.2.2⟩
    · rw [if_neg hc] at h
      cases h

/-- C10: every event yielded by the legacy decoder has `raw`, `x` and `y`
in `[0, 95]`: the matcher only accepts payload characters with codes in
`[0x20, 0x7f]` and the decoder subtracts 32 from each, so the values are
never negative and never exceed 95; inputs whose payload bytes fall
outside that class produce no match at all. -/
theorem esc_event_ranges (s : List Char) (e : MEvent)
    (he : e ∈ parseESCMouseEvents s) :
    0 ≤ e.raw ∧ e.raw ≤ 95 ∧ 0 ≤ e.x ∧ e.x ≤ 95 ∧ 0 ≤ e.y ∧ e.y ≤ 95 := by
  unfold parseESCMouseEvents at he
  obtain ⟨mm, hmm, hev⟩ := List.mem_map.mp he
  have hmm2 := mem_of_mem_dedupConsecutiveBy EscMatch.whole _ _ _ hmm
  unfold matchAllAnchored at hmm2
  rcases hatt : escMatchAtStart s with _ | m0
  · rw [hatt] at hmm2
    simp at hmm2
  · rw [hatt] at hmm2
    simp at hmm2
    subst hmm2
    obtain ⟨h1, h2, h3⟩ := escMatch_payloads hatt
    subst hev
    unfold escEventOfMatch
    unfold isEscPayload at h1 h2 h3
    simp only []
    refine ⟨?_, ?_, ?_, ?_, ?_, ?_⟩ <;> omega

/-- C10 witness: the legacy press `ESC [ M SP # 4` decodes to an event
with `raw = 0`, `x = 3`, `y = 20`, all within `[0, 95]`. -/
theorem esc_event_ranges_witness :
    (escEventOfMatch ⟨"\x1b[M #4".toList, ' ', '#', '4'⟩ ∈
        parseESCMouseEvents ("\x1b[M #4".toList))
    ∧ (0 : Int) ≤ (escEventOfMatch ⟨"\x1b[M #4".toList, ' ', '#', '4'⟩).raw
    ∧ (escEventOfMatch ⟨"\x1b[M #4".toList, ' ', '#', '4'⟩).raw ≤ 95 := by
  have hm : escEventOfMatch ⟨"\x1b[M #4".toList, ' ', '#', '4'⟩ ∈
      parseESCMouseEvents ("\x1b[M #4".toList) := by decide
  have h := esc_event_ranges ("\x1b[M #4".toList)
    (escEventOfMatch ⟨"\x1b[M #4".toList, ' ', '#', '4'⟩) hm
  exact ⟨hm, h.1, h.2.1⟩

/-! ### Queue-capacity lemmas (claims C5, C6, C7) -/

/-- As long as the capacity is not reached, arrivals append to the FIFO
without eviction. -/
theorem arriveFold_no_overflow {α : Type} (cap : Nat) :
    ∀ (evs : List α) (st : SubSt α), st.waiter = false →
      st.queue.length + evs.length ≤ cap →
      arriveFold (handlerArrive false cap) st evs =
        { st with queue := st.queue ++ evs } := by
  intro evs
  induction evs with
  | nil =>
    intro st hw hlen
    simp [arriveFold]
  | cons e es ih =>
    intro st hw hlen
    unfold arriveFold
    have hstep : (handlerArrive false cap st e).st =
        { st with queue := st.queue ++ [e] } := by
      unfold handlerArrive
      rw [if_neg (by simp [hw])]
      rw [if_neg (by simp)]
      rw [if_neg (by simp at hlen ⊢; omega)]
    rw [hstep]
    rw [ih _ (by simp [hw]) (by simp at hlen ⊢; omega)]
    simp

/-- C5 counterexample: `stream` applies no ceiling to the requested
`maxQueue` — only `eventsOf` computes `Math.min(maxQueue, 1000)`.  With
`maxQueue = 1001` and no consumer pulling, 1001 arrivals leave 1001 queued
items, exceeding the claimed hard cap of 1000. -/
theorem stream_queue_exceeds_1000 :
    1000 < (arriveFold (streamArrive false 1001)
        (⟨[], [], Option.none, false, false⟩ : SubSt Nat)
        (List.replicate 1001 (0 : Nat))).queue.length := by
  rw [show streamArrive false 1001 = handlerArrive (α := Nat) false 1001 from rfl]
  rw [arriveFold_no_overflow 1001 (List.replicate 1001 (0 : Nat))
    ⟨[], [], Option.none, false, false⟩ rfl
    (by rw [List.length_replicate]; simp)]
  show 1000 < ([] ++ List.replicate 1001 (0 : Nat)).length
  rw [List.nil_append, List.length_replicate]
  omega

/-- C5 amended: `maxQueue` defaults to 100 for `eventsOf` and 1000 for
`stream`; the `Math.min(maxQueue, 1000)` ceiling is applied by `eventsOf`
only, where it bounds the FIFO, while `stream` uses the requested value
as its capacity; in both forms an arrival hitting a full FIFO (no pull
suspended, `latestOnly` false) evicts the oldest queued item to admit the
new one. -/
theorem queue_capacity_behavior :
    (({} : EventsOfOptions).maxQueue = 100)
  ∧ (({} : StreamOptions).maxQueue = 1000)
  ∧ (∀ (mq : Nat) (st : SubSt Nat) (ev : Nat), st.waiter = false →
      1 ≤ min mq 1000 → st.queue.length ≤ min mq 1000 →
      (eventsOfArrive false mq st ev).st.queue.length ≤ min mq 1000)
  ∧ (∀ (mq : Nat) (st : SubSt Nat) (ev : Nat), st.waiter = false →
      st.queue.length = min mq 1000 →
      (eventsOfArrive false mq st ev).st.queue = st.queue.tail ++ [ev])
  ∧ (∀ (mq : Nat) (st : SubSt Nat) (ev : Nat), st.waiter = false →
      st.queue.length = mq →
      (streamArrive false mq st ev).st.queue = st.queue.tail ++ [ev]) := by
  refine ⟨rfl, rfl, ?_, ?_, ?_⟩
  · intro mq st ev hw hcap hlen
    unfold eventsOfArrive handlerArrive
    rw [if_neg (by simp [hw]), if_neg (by simp)]
    by_cases hq : st.queue.length ≥ min mq 1000
    · rw [if_pos hq]
      simp
      cases hqq : st.queue with
      | nil => simp [hqq] at hq ⊢; omega
      | cons q qs => simp [hqq] at hlen ⊢; omega
    · rw [if_neg hq]
      simp
      omega
  · intro mq st ev hw hlen
    unfold eventsOfArrive handlerArrive
    rw [if_neg (by simp [hw]), if_neg (by simp), if_pos (by omega)]
  · intro mq st ev hw hlen
    unfold streamArrive handlerArrive
    rw [if_neg (by simp [hw]), if_neg (by simp), if_pos (by omega)]

/-- C5 amended witness: at requested capacity 2 with a full queue, the
arrival in both forms drops the oldest item and admits the new one; the
defaults are 100 and 1000. -/
theorem queue_capacity_behavior_witness :
    (({} : EventsOfOptions).maxQueue = 100)
  ∧ (({} : StreamOptions).maxQueue = 1000)
  ∧ (eventsOfArrive false 2 (⟨[5, 6], [], Option.none, false, false⟩ : SubSt Nat)
      7).st.queue = [6, 7]
  ∧ (streamArrive false 2 (⟨[5, 6], [], Option.none, false, false⟩ : SubSt Nat)
      7).st.queue = [6, 7] := by
  obtain ⟨h1, h2, _, h4, h5⟩ := queue_capacity_behavior
  exact ⟨h1, h2,
    h4 2 ⟨[5, 6], [], Option.none, false, false⟩ 7 rfl (by decide),
    h5 2 ⟨[5, 6], [], Option.none, false, false⟩ 7 rfl (by decide)⟩

/-- C6: a signal already aborted at the subscription call makes the first
pull fail immediately (the check at the top of the generator body); an
aborted signal makes any pull raise the abort error before touching the
queues; a recorded error is raised by the next pull before any queued
event is yielded; and an error arriving while no pull is suspended is
recorded and then raised — wrapped in the stream's error kind — by the
next pull, whatever the FIFO holds. -/
theorem pull_error_first (st : SubSt Nat) (id : Nat) :
    (generatorStart true = some SErr.plainAbort)
  ∧ (st.aborted = true → (pullStep st).1 = PullOut.raise SErr.mouseAbort)
  ∧ (∀ e rest, st.aborted = false → st.errorQueue = e :: rest →
      (pullStep st).1 = PullOut.raise e)
  ∧ (st.aborted = false → st.waiter = false → st.errorQueue = [] →
      (pullStep (errorArrive st id).1).1 = PullOut.raise (SErr.wrapped id)) := by
  refine ⟨rfl, ?_, ?_, ?_⟩
  · intro h
    simp [pullStep, h]
  · intro e rest h1 h2
    simp [pullStep, h1, h2]
  · intro h1 h2 h3
    simp [errorArrive, pullStep, h1, h2, h3]

/-- C6 witness: with one event queued, an upstream error recorded while no
pull was suspended is raised by the next pull instead of the queued
event. -/
theorem pull_error_first_witness :
    (pullStep ((errorArrive (⟨[7], [], Option.none, false, false⟩ : SubSt Nat) 3).1)).1
      = PullOut.raise (SErr.wrapped 3) := by
  have h := pull_error_first ⟨[7], [], Option.none, false, false⟩ 3
  exact h.2.2.2 rfl rfl rfl

/-- C7 counterexample: with a TTY input whose `setEncoding` throws, enable
fails after `setRawMode(true)` has already been applied — raw mode stays
applied, contradicting "enable failure never leaves partial raw-mode state
applied"; and a non-TTY input makes enable throw a bare `Error`, not the
wrapped `MouseError` kind. -/
theorem enable_rollback_counterexample :
    (enable { setEncFails := true } ⟨true, false, Option.none, false, false⟩
        ⟨false, Option.none, Option.none⟩).thrown = some ErrKind.mouse
  ∧ (enable { setEncFails := true } ⟨true, false, Option.none, false, false⟩
        ⟨false, Option.none, Option.none⟩).term.isRaw = true
  ∧ (enable { setEncFails := true } ⟨true, false, Option.none, false, false⟩
        ⟨false, Option.none, Option.none⟩).mouse.enabled = false
  ∧ (enable {} ⟨false, false, Option.none, false, false⟩
        ⟨false, Option.none, Option.none⟩).thrown = some ErrKind.plain := by
  decide

/-- C7 amended: whenever `enable` fails, `isEnabled()` is false
afterwards; the failure is thrown synchronously — as a bare `Error`
exactly when the input is not a TTY, and wrapped in `MouseError` for
failures inside the setup sequence; and when a setup step after a
successful `setRawMode(true)` throws, raw mode remains applied to the
input stream (no rollback is performed). -/
theorem enable_failure_behavior (cfg : FailCfg) (t : TermSt) (m : MouseSt)
    (hm : m.enabled = false) (hf : (enable cfg t m).thrown ≠ Option.none) :
    ((enable cfg t m).mouse.enabled = false)
  ∧ ((enable cfg t m).thrown = some ErrKind.plain ↔ t.isTTY = false)
  ∧ (t.isTTY = true → cfg.writeFails = false → cfg.setRawFails = false →
      (enable cfg t m).term.isRaw = true) := by
  unfold enable at hf ⊢
  split_ifs at hf ⊢ <;> simp_all

/-- C7 amended witness: a TTY input whose `resume` throws — enable fails
with the instance disabled and raw mode left applied. -/
theorem enable_failure_behavior_witness :
    ((enable { resumeFails := true } ⟨true, false, Option.none, false, false⟩
        ⟨false, Option.none, Option.none⟩).mouse.enabled = false)
  ∧ ((enable { resumeFails := true } ⟨true, false, Option.none, false, false⟩
        ⟨false, Option.none, Option.none⟩).term.isRaw = true) := by
  have h := enable_failure_behavior { resumeFails := true }
    ⟨true, false, Option.none, false, false⟩ ⟨false, Option.none, Option.none⟩
    rfl (by decide)
  exact ⟨h.1, h.2.2 rfl rfl rfl⟩

end XtermMouse
